import Mathlib

/-!
# Verification of the YouTube-subtitle generation pipeline

A shallow embedding of the two HTTP handlers of the repository:

* `server.js` — `POST /api/generate` ("timed-document" mode): fetches English
  captions, joins them into a transcript, asks the translation model for a
  ready WebVTT document, then cleans that document up (strips markdown code
  fences, trims, prepends the `WEBVTT` header when missing) and returns it.
* the plain-mode server (`app.post('/api/subtitles')`) — fetches video
  metadata, asks the translation model for plain prose, splits the prose on
  whitespace and groups it into fixed 2-second cues of 5 words each.

Strings are modelled as `List Char`; the JavaScript collaborators (caption
scraper, ytdl metadata, Gemini) are modelled as explicit inputs, and each
pipeline returns, besides its result, the list of external calls it issued,
so that "fails before any network call" style properties can be stated.
-/

namespace YTSubs

/-- Whitespace test used to model the JavaScript `\s` character class and
`String.prototype.trim` (restricted to the ASCII whitespace that can actually
occur in the payloads considered here). -/
def isWs (c : Char) : Bool := c = ' ' || c = '\t' || c = '\n' || c = '\r'

/-- Model of `String.prototype.trim`: drop whitespace from both ends. -/
def trimStr (l : List Char) : List Char :=
  ((l.dropWhile isWs).reverse.dropWhile isWs).reverse

/-! ## `server.js`, `POST /api/generate` -/

/-- One caption object returned by `youtube-captions-scraper`'s
`getSubtitles`; the handler only ever reads the `text` field (`server.js`
line 44), `start` and `dur` are carried along untouched. -/
structure CaptionFragment where
  start : List Char
  dur : List Char
  text : List Char
deriving DecidableEq

/-- `server.js` line 44: `captions.map(c => c.text).join(' ')`. -/
def assemble (captions : List CaptionFragment) : List Char :=
  List.intercalate [' '] (captions.map CaptionFragment.text)

/-- Model of the regex scan `youtubeUrl.match(/(?:v=|youtu\.be\/)([^&?]+)/)`
(`server.js` line 28): scan left to right; at the first position where
either `v=` or `youtu.be/` matches and is followed by at least one character
other than `&`/`?`, capture the run of such characters.  When the capture
would be empty the regex engine fails at that position and the scan resumes
one character later, which is what the tail-recursive calls do. -/
def extractVideoID : List Char → Option (List Char)
  | 'v' :: '=' :: rest =>
    let cap := rest.takeWhile (fun c => c ≠ '&' && c ≠ '?')
    if cap.isEmpty then extractVideoID ('=' :: rest) else some cap
  | 'y' :: 'o' :: 'u' :: 't' :: 'u' :: '.' :: 'b' :: 'e' :: '/' :: rest =>
    let cap := rest.takeWhile (fun c => c ≠ '&' && c ≠ '?')
    if cap.isEmpty then extractVideoID ('o' :: 'u' :: 't' :: 'u' :: '.' :: 'b' :: 'e' :: '/' :: rest)
    else some cap
  | _ :: rest => extractVideoID rest
  | [] => none

/-- First cleanup replace of `server.js` line 79:
`vttContent.replace(/```vtt\n/g, '')` — remove every occurrence of the
seven-character sequence backtick-backtick-backtick-v-t-t-newline, scanning
left to right with non-overlapping matches. -/
def stripFenceVtt : List Char → List Char
  | '`' :: '`' :: '`' :: 'v' :: 't' :: 't' :: '\n' :: rest => stripFenceVtt rest
  | c :: rest => c :: stripFenceVtt rest
  | [] => []

/-- Second cleanup replace of `server.js` line 79: `.replace(/```/g, '')` —
remove every (left-to-right, non-overlapping) occurrence of three
consecutive backticks. -/
def stripTicks : List Char → List Char
  | '`' :: '`' :: '`' :: rest => stripTicks rest
  | c :: rest => c :: stripTicks rest
  | [] => []

/-- `server.js` lines 79–82: the whole "Validator/Repairer" of the
timed-document mode.  Strip ```vtt fences, strip stray ``` fences, trim,
and prepend `WEBVTT` plus a blank line when the result does not already
start with the header.  Note: it is a total function — there is no failure
path and no inspection of timestamps. -/
def cleanupVtt (s : List Char) : List Char :=
  let s1 := stripTicks (stripFenceVtt s)
  let s2 := trimStr s1
  if "WEBVTT".data.isPrefixOf s2 then s2 else "WEBVTT\n\n".data ++ s2

/-- An external call issued by the `/api/generate` handler.  The caption
fetch carries the extracted video id (the hard-coded `lang: 'en'` argument
is omitted); the translation call carries the assembled transcript (the
surrounding constant prompt text of `server.js` lines 53–69 is elided, the
transcript is the only request-dependent part that matters here). -/
inductive GenCall where
  | fetchCaptions (videoID : List Char)
  | translate (transcript : List Char)
deriving DecidableEq

/-- Outcome of the `/api/generate` handler, one constructor per `res.…`
site of `server.js`: 400 for missing fields, 400 for an unmatchable URL,
404 when the captions list is null/empty, and the served VTT text. -/
inductive GenResult where
  | missingParams
  | invalidUrl
  | noCaptions
  | vtt (content : List Char)
deriving DecidableEq

/-- The `/api/generate` handler of `server.js` (lines 20–94) as a function
of the request fields and of the two collaborator responses, returning its
outcome together with the external calls it issued, in order.  A JS falsy
field (absent or empty string) is modelled as `[]`; `captions = none` models
a null captions value (both `!captions` and zero length take the 404
branch).  The success path through the Gemini call never throws in this
model, so line 92's catch-all 500 has no counterpart. -/
def generatePipeline (youtubeUrl language : List Char)
    (captions : Option (List CaptionFragment)) (gemini : List Char) :
    GenResult × List GenCall :=
  if youtubeUrl.isEmpty || language.isEmpty then (.missingParams, [])
  else
    match extractVideoID youtubeUrl with
    | none => (.invalidUrl, [])
    | some videoID =>
      match captions with
      | none => (.noCaptions, [.fetchCaptions videoID])
      | some [] => (.noCaptions, [.fetchCaptions videoID])
      | some frags =>
        (.vtt (cleanupVtt gemini),
         [.fetchCaptions videoID, .translate (assemble frags)])

/-! ## Plain-mode server, `POST /api/subtitles` -/

/-- Model of `translatedText.split(/\s+/)` (plain-mode server line
`const words = translatedText.split(/\s+/);`): fields are the maximal runs
of non-whitespace characters, with an empty field at an end of the string
when it starts/ends with whitespace (exactly JavaScript's behaviour for a
`\s+` separator).  The state is `some cur` while building a field (`cur`
reversed) and `none` while inside a separator run. -/
def splitWsGo : Option (List Char) → List Char → List (List Char)
  | some cur, [] => [cur.reverse]
  | none, [] => [[]]
  | some cur, c :: rest =>
    if isWs c then cur.reverse :: splitWsGo none rest
    else splitWsGo (some (c :: cur)) rest
  | none, c :: rest =>
    if isWs c then splitWsGo none rest
    else splitWsGo (some [c]) rest

/-- `translatedText.split(/\s+/)`. -/
def splitWs (s : List Char) : List (List Char) := splitWsGo (some []) s

/-- One synthesized subtitle cue, the object literal
`{ text, start, end: … }` pushed by the plain-mode server; the JS field
`end` is a Lean keyword and is called `stop` here. -/
structure Cue where
  text : List Char
  start : Nat
  stop : Nat
deriving DecidableEq

/-- `words.slice(wordIndex, wordIndex + 5).join(' ')`. -/
def cueText (group : List (List Char)) : List Char :=
  List.intercalate [' '] group

/-- The `while (wordIndex < words.length)` loop of the plain-mode server:
take the next 5 words (fewer at the end), join them with spaces, skip the
group when the joined text trims to nothing (`subtitleText.trim() === ''`,
i.e. every character is whitespace) without advancing the clock, otherwise
emit a cue `[t, t+2)` and advance the clock by 2 seconds. -/
def synthCues : List (List Char) → Nat → List Cue
  | [], _ => []
  | w1 :: w2 :: w3 :: w4 :: w5 :: rest, t =>
    let txt := cueText [w1, w2, w3, w4, w5]
    if txt.all isWs then synthCues rest t
    else ⟨txt, t, t + 2⟩ :: synthCues rest (t + 2)
  | ws, t =>
    let txt := cueText ws
    if txt.all isWs then [] else [⟨txt, t, t + 2⟩]

/-- Video metadata returned by `ytdl.getInfo`, reduced to the two fields
the handler reads: `videoDetails.title` and `videoDetails.lengthSeconds`
(already through `parseInt`). -/
structure VideoInfo where
  title : List Char
  lengthSeconds : Nat
deriving DecidableEq

/-- An external call issued by the `/api/subtitles` handler.  The metadata
fetch carries the video id; the translation call carries the target
language and the video title, the request-dependent parts of the prompt
(the transcript placeholder of that handler is a constant). -/
inductive SubCall where
  | getInfo (videoId : List Char)
  | translate (language : List Char) (title : List Char)
deriving DecidableEq

/-- Outcome of the `/api/subtitles` handler: 400 for missing fields, 500
when `ytdl.getInfo` rejects (the catch-all), and the JSON cue list. -/
inductive SubResult where
  | missingParams
  | serverError
  | subtitles (cues : List Cue)
deriving DecidableEq

/-- The `/api/subtitles` handler of the plain-mode server (lines 427–503 of
the source) as a function of the request fields and the two collaborator
responses, with the external calls it issued.  `info = none` models a
rejected `ytdl.getInfo` promise, which lands in the catch-all 500.  Note
that `wordsPerSecond = words.length / videoDuration` is computed and then
never read (in JS a zero duration yields `Infinity`, not an error; the
rational division here yields 0), and that no language validation and no
zero-duration guard exist. -/
def subtitlesPipeline (videoId language : List Char)
    (info : Option VideoInfo) (gemini : List Char) :
    SubResult × List SubCall :=
  if videoId.isEmpty || language.isEmpty then (.missingParams, [])
  else
    match info with
    | none => (.serverError, [.getInfo videoId])
    | some i =>
      let words := splitWs gemini
      let _wordsPerSecond : ℚ := (words.length : ℚ) / (i.lengthSeconds : ℚ)
      (.subtitles (synthCues words 0),
       [.getInfo videoId, .translate language i.title])

/-! ## Invariants of the cue synthesizer -/

/-- Every cue emitted by the synthesis loop lasts exactly from its clock
value `t` to `t + 2`; skipped groups do not advance the clock, so consecutive
emitted cues are exactly contiguous, and the first emitted cue starts at
the clock value the loop was entered with. -/
theorem synthCues_spec (ws : List (List Char)) (t : Nat) :
    (∀ c ∈ synthCues ws t, c.start < c.stop) ∧
    List.Chain' (fun a b => a.stop = b.start) (synthCues ws t) ∧
    (∀ c, (synthCues ws t).head? = some c → c.start = t) := by
  induction ws, t using synthCues.induct with
  | case1 t => simp [synthCues]
  | case2 w1 w2 w3 w4 w5 rest t txt htxt ih =>
    simp only [synthCues, htxt, if_true]
    exact ih
  | case3 w1 w2 w3 w4 w5 rest t txt htxt ih =>
    obtain ⟨ih1, ih2, ih3⟩ := ih
    simp only [synthCues, htxt, if_false, Bool.false_eq_true]
    refine ⟨?_, ?_, ?_⟩
    · intro c hc
      rcases List.mem_cons.mp hc with rfl | hc
      · simp
      · exact ih1 c hc
    · refine List.chain'_cons'.mpr ⟨?_, ih2⟩
      intro y hy
      have := ih3 y hy
      simp [this]
    · intro c hc
      simp only [List.head?_cons, Option.some.injEq] at hc
      subst hc; rfl
  | case4 ws t h1 h2 txt htxt =>
    rw [synthCues.eq_def]
    split
    · simp
    · exfalso
      exact h2 _ _ _ _ _ _ rfl
    · simp [htxt]
  | case5 ws t h1 h2 txt htxt =>
    rw [synthCues.eq_def]
    split
    · simp
    · exfalso
      exact h2 _ _ _ _ _ _ rfl
    · simp only [htxt, if_false, Bool.false_eq_true]
      refine ⟨?_, ?_, ?_⟩
      · intro c hc
        simp only [List.mem_singleton] at hc
        subst hc; simp
      · simp
      · intro c hc
        simp only [List.head?_cons, Option.some.injEq] at hc
        subst hc; rfl

/-- C4: for every cue sequence produced by the Cue Synthesizer, each cue
satisfies `start < end`, adjacent cues satisfy `cue[i].end ≤ cue[i+1].start`,
and under the fixed 2-second policy each cue's end equals the next cue's
start exactly. -/
theorem synthesizer_cue_invariants (translated : List Char) :
    (∀ c ∈ synthCues (splitWs translated) 0, c.start < c.stop) ∧
    List.Chain' (fun a b => a.stop ≤ b.start) (synthCues (splitWs translated) 0) ∧
    List.Chain' (fun a b => a.stop = b.start) (synthCues (splitWs translated) 0) := by
  obtain ⟨h1, h2, -⟩ := synthCues_spec (splitWs translated) 0
  exact ⟨h1, h2.imp fun {a b} h => Nat.le_of_eq h, h2⟩

/-! ## C2: no zero-duration guard in the plain-mode handler -/

/-- C2 (amended): the plain-mode handler has no zero-or-unknown-duration
guard and no `InsufficientTimingData` failure; for every metadata value,
including one with `lengthSeconds = 0`, it succeeds and returns the
synthesized fixed-2-second cues, whose value is independent of the
duration (`wordsPerSecond` is computed but never read). -/
theorem plain_mode_has_no_duration_guard (videoId language title gemini : List Char)
    (d : Nat) (hv : videoId ≠ []) (hl : language ≠ []) :
    subtitlesPipeline videoId language (some ⟨title, d⟩) gemini =
      (.subtitles (synthCues (splitWs gemini) 0),
       [.getInfo videoId, .translate language title]) := by
  simp [subtitlesPipeline, hv, hl]

/-- C2 counterexample: with a known duration of exactly 0 the handler does
not fail with `InsufficientTimingData` (no such failure exists); it returns
the synthesized cues, so the claimed guard is absent. -/
theorem plain_mode_zero_duration_counterexample :
    subtitlesPipeline "abc123xyz00".data "es".data (some ⟨"Demo".data, 0⟩) "hello world".data =
      (.subtitles [⟨"hello world".data, 0, 2⟩],
       [.getInfo "abc123xyz00".data, .translate "es".data "Demo".data]) := by decide

/-- C2 witness: the amended theorem applied at duration 0. -/
theorem plain_mode_has_no_duration_guard_witness :
    subtitlesPipeline "vid001".data "fr".data (some ⟨"Title".data, 0⟩) "bonjour le monde".data =
      (.subtitles (synthCues (splitWs "bonjour le monde".data) 0),
       [.getInfo "vid001".data, .translate "fr".data "Title".data]) :=
  plain_mode_has_no_duration_guard _ _ _ _ 0 (by decide) (by decide)

/-! ## C3: no supported-language check -/

/-- C3 counterexample: with the unsupported tag `"xx"` the timed-document
pipeline does not fail with `UnsupportedLanguage` (no such failure exists);
it issues the caption fetch and the translation call and succeeds. -/
theorem unsupported_language_counterexample :
    generatePipeline "https://youtu.be/dQw4w9WgXcQ".data "xx".data
        (some [⟨"0".data, "1".data, "hello there".data⟩])
        "WEBVTT\n\n00:00:00.000 --> 00:00:02.000\nHola".data =
      (.vtt "WEBVTT\n\n00:00:00.000 --> 00:00:02.000\nHola".data,
       [.fetchCaptions "dQw4w9WgXcQ".data,
        .translate "hello there".data]) := by decide

/-- C3 (amended): neither handler validates the language tag against a
supported set; any non-empty language value, supported or not, proceeds to
the first external call (the caption fetch for `/api/generate`, the
metadata fetch for `/api/subtitles`). -/
theorem no_language_validation (youtubeUrl lang gemini vid : List Char)
    (captions : Option (List CaptionFragment))
    (videoId lang' gemini' : List Char) (info : Option VideoInfo)
    (hu : youtubeUrl ≠ []) (hl : lang ≠ [])
    (hx : extractVideoID youtubeUrl = some vid)
    (hv : videoId ≠ []) (hl' : lang' ≠ []) :
    (generatePipeline youtubeUrl lang captions gemini).2.head? =
      some (.fetchCaptions vid) ∧
    (subtitlesPipeline videoId lang' info gemini').2.head? =
      some (.getInfo videoId) := by
  constructor
  · rcases captions with - | (- | ⟨f, fs⟩) <;> simp [generatePipeline, hu, hl, hx]
  · rcases info with - | i <;> simp [subtitlesPipeline, hv, hl']

/-- C3 witness: the amended theorem applied at the unsupported tag `"xx"`. -/
theorem no_language_validation_witness :
    (generatePipeline "https://www.youtube.com/watch?v=zzz999".data "xx".data none "ignored".data).2.head? =
      some (.fetchCaptions "zzz999".data) ∧
    (subtitlesPipeline "zzz999".data "xx".data none "ignored".data).2.head? =
      some (.getInfo "zzz999".data) :=
  no_language_validation _ _ _ _ _ _ _ _ _ (by decide) (by decide) (by decide)
    (by decide) (by decide)

/-! ## C6: empty caption list short-circuits before translation -/

/-- C6: whenever the caption source returns a null or empty fragment list,
the timed-document pipeline answers `noCaptions` (the 404 response) having
issued only the caption fetch, and no translation call appears in its
trace. -/
theorem empty_captions_short_circuit (youtubeUrl lang gemini vid : List Char)
    (hu : youtubeUrl ≠ []) (hl : lang ≠ [])
    (hx : extractVideoID youtubeUrl = some vid) :
    generatePipeline youtubeUrl lang none gemini = (.noCaptions, [.fetchCaptions vid]) ∧
    generatePipeline youtubeUrl lang (some []) gemini = (.noCaptions, [.fetchCaptions vid]) ∧
    (∀ t, GenCall.translate t ∉ (generatePipeline youtubeUrl lang none gemini).2) ∧
    (∀ t, GenCall.translate t ∉ (generatePipeline youtubeUrl lang (some []) gemini).2) := by
  refine ⟨?_, ?_, ?_, ?_⟩ <;> simp [generatePipeline, hu, hl, hx]

/-- C6 witness: the theorem applied at a concrete request. -/
theorem empty_captions_short_circuit_witness :
    generatePipeline "https://youtu.be/empty01".data "de".data none "resp".data =
      (.noCaptions, [.fetchCaptions "empty01".data]) ∧
    generatePipeline "https://youtu.be/empty01".data "de".data (some []) "resp".data =
      (.noCaptions, [.fetchCaptions "empty01".data]) ∧
    (∀ t, GenCall.translate t ∉
      (generatePipeline "https://youtu.be/empty01".data "de".data none "resp".data).2) ∧
    (∀ t, GenCall.translate t ∉
      (generatePipeline "https://youtu.be/empty01".data "de".data (some []) "resp".data).2) :=
  empty_captions_short_circuit _ _ _ _ (by decide) (by decide) (by decide)

/-! ## C8: the transcript assembler -/

/-- Unfolding of `join(' ')` one fragment at a time. -/
lemma intercalate_space_cons (w : List Char) (ws : List (List Char)) :
    List.intercalate [' '] (w :: ws) =
      w ++ (if ws.isEmpty then [] else ' ' :: List.intercalate [' '] ws) := by
  cases ws <;> simp [List.intercalate, List.intersperse]

/-- Every fragment's text occurs verbatim inside the assembled transcript. -/
lemma assemble_mem_decomp :
    ∀ (fs : List CaptionFragment), ∀ g ∈ fs, ∃ p q, assemble fs = p ++ g.text ++ q := by
  intro fs
  induction fs with
  | nil => intro g hg; simp at hg
  | cons f fs ih =>
    intro g hg
    rcases List.mem_cons.mp hg with rfl | hg
    · refine ⟨[], (if fs.isEmpty then [] else ' ' :: assemble fs), ?_⟩
      simp [assemble, intercalate_space_cons]
    · obtain ⟨p, q, hpq⟩ := ih g hg
      rcases fs with - | ⟨v, fs⟩
      · simp at hg
      · refine ⟨f.text ++ [' '] ++ p, q, ?_⟩
        simp [assemble, intercalate_space_cons] at hpq ⊢
        simp [hpq]

/-- C8: for every non-empty caption fragment sequence the assembled
transcript is the fragments' text fields joined in original order with a
single-space separator (the recursive characterization below), and no
fragment's text is dropped: each occurs verbatim in the output. -/
theorem assembler_space_join (f : CaptionFragment) (fs : List CaptionFragment) :
    assemble (f :: fs) =
      f.text ++ (if fs.isEmpty then [] else ' ' :: assemble fs) ∧
    ∀ g ∈ f :: fs, ∃ p q, assemble (f :: fs) = p ++ g.text ++ q := by
  constructor
  · simp [assemble, intercalate_space_cons]
  · exact assemble_mem_decomp (f :: fs)

/-! ## C5: the 25-word example -/

/-- A word group whose first word starts with a non-whitespace character
joins to a text that does not trim to empty. -/
lemma cueText_all_ws_false (c : Char) (w : List Char) (ws : List (List Char))
    (hc : isWs c = false) :
    (cueText ((c :: w) :: ws)).all isWs = false := by
  unfold cueText
  rw [intercalate_space_cons]
  simp [hc]

/-- A full group of five words that does not trim to empty emits one cue
and advances the clock by two seconds. -/
lemma synthCues_cons5 (w1 w2 w3 w4 w5 : List Char) (rest : List (List Char)) (t : Nat)
    (h : (cueText [w1, w2, w3, w4, w5]).all isWs = false) :
    synthCues (w1 :: w2 :: w3 :: w4 :: w5 :: rest) t =
      ⟨cueText [w1, w2, w3, w4, w5], t, t + 2⟩ :: synthCues rest (t + 2) := by
  simp [synthCues, h]

/-- C5: with a known duration of 10 seconds and a translated string of
exactly 25 whitespace-separated (non-empty, whitespace-free) words, the
synthesizer produces exactly 5 cues timed (0,2) (2,4) (4,6) (6,8) (8,10),
each holding 5 consecutive words in original order. -/
theorem twentyfive_word_example (videoId language title text : List Char)
    (w1 w2 w3 w4 w5 w6 w7 w8 w9 w10 w11 w12 w13 w14 w15 w16 w17 w18 w19 w20 w21 w22 w23 w24 w25 : List Char)
    (hv : videoId ≠ []) (hl : language ≠ [])
    (hsplit : splitWs text = [w1, w2, w3, w4, w5, w6, w7, w8, w9, w10, w11, w12, w13, w14, w15, w16, w17, w18, w19, w20, w21, w22, w23, w24, w25])
    (hword : ∀ w ∈ splitWs text, w ≠ [] ∧ w.all (fun c => !isWs c) = true) :
    subtitlesPipeline videoId language (some ⟨title, 10⟩) text =
      (.subtitles
        [⟨cueText [w1, w2, w3, w4, w5], 0, 2⟩,
         ⟨cueText [w6, w7, w8, w9, w10], 2, 4⟩,
         ⟨cueText [w11, w12, w13, w14, w15], 4, 6⟩,
         ⟨cueText [w16, w17, w18, w19, w20], 6, 8⟩,
         ⟨cueText [w21, w22, w23, w24, w25], 8, 10⟩],
       [.getInfo videoId, .translate language title]) := by
  rw [hsplit] at hword
  obtain ⟨hne1, hall1⟩ := hword w1 (by simp)
  obtain ⟨c1, v1, rfl⟩ := List.exists_cons_of_ne_nil hne1
  simp only [List.all_cons, Bool.and_eq_true, Bool.not_eq_true'] at hall1
  have hg1 := cueText_all_ws_false c1 v1 [w2, w3, w4, w5] hall1.1
  obtain ⟨hne2, hall2⟩ := hword w6 (by simp)
  obtain ⟨c2, v2, rfl⟩ := List.exists_cons_of_ne_nil hne2
  simp only [List.all_cons, Bool.and_eq_true, Bool.not_eq_true'] at hall2
  have hg2 := cueText_all_ws_false c2 v2 [w7, w8, w9, w10] hall2.1
  obtain ⟨hne3, hall3⟩ := hword w11 (by simp)
  obtain ⟨c3, v3, rfl⟩ := List.exists_cons_of_ne_nil hne3
  simp only [List.all_cons, Bool.and_eq_true, Bool.not_eq_true'] at hall3
  have hg3 := cueText_all_ws_false c3 v3 [w12, w13, w14, w15] hall3.1
  obtain ⟨hne4, hall4⟩ := hword w16 (by simp)
  obtain ⟨c4, v4, rfl⟩ := List.exists_cons_of_ne_nil hne4
  simp only [List.all_cons, Bool.and_eq_true, Bool.not_eq_true'] at hall4
  have hg4 := cueText_all_ws_false c4 v4 [w17, w18, w19, w20] hall4.1
  obtain ⟨hne5, hall5⟩ := hword w21 (by simp)
  obtain ⟨c5, v5, rfl⟩ := List.exists_cons_of_ne_nil hne5
  simp only [List.all_cons, Bool.and_eq_true, Bool.not_eq_true'] at hall5
  have hg5 := cueText_all_ws_false c5 v5 [w22, w23, w24, w25] hall5.1
  simp only [subtitlesPipeline, hv, hl]
  rw [hsplit]
  rw [synthCues_cons5 _ _ _ _ _ _ _ hg1, synthCues_cons5 _ _ _ _ _ _ _ hg2, synthCues_cons5 _ _ _ _ _ _ _ hg3, synthCues_cons5 _ _ _ _ _ _ _ hg4, synthCues_cons5 _ _ _ _ _ _ _ hg5]
  simp [synthCues]
  exact ⟨hv, hl⟩

/-- C5 witness: the theorem applied to the 25 words a … y. -/
theorem twentyfive_word_example_witness :
    subtitlesPipeline "v25".data "es".data (some ⟨"T".data, 10⟩) "a b c d e f g h i j k l m n o p q r s t u v w x y".data =
      (.subtitles
        [⟨cueText ["a".data, "b".data, "c".data, "d".data, "e".data], 0, 2⟩,
         ⟨cueText ["f".data, "g".data, "h".data, "i".data, "j".data], 2, 4⟩,
         ⟨cueText ["k".data, "l".data, "m".data, "n".data, "o".data], 4, 6⟩,
         ⟨cueText ["p".data, "q".data, "r".data, "s".data, "t".data], 6, 8⟩,
         ⟨cueText ["u".data, "v".data, "w".data, "x".data, "y".data], 8, 10⟩],
       [.getInfo "v25".data, .translate "es".data "T".data]) :=
  twentyfive_word_example _ _ _ _ "a".data "b".data "c".data "d".data "e".data "f".data "g".data "h".data "i".data "j".data "k".data "l".data "m".data "n".data "o".data "p".data "q".data "r".data "s".data "t".data "u".data "v".data "w".data "x".data "y".data
    (by decide) (by decide) (by decide) (by decide)


/-! ## C1, C7, C10: the timed-document repairer -/


/-- Does the list contain three consecutive backticks (a fence marker)? -/
def hasTriple : List Char → Bool
  | a :: b :: c :: rest => (a = '`' && b = '`' && c = '`') || hasTriple (b :: c :: rest)
  | _ => false

/-- Number of leading backticks. -/
def leadTicks : List Char → Nat
  | c :: rest => if c = '`' then leadTicks rest + 1 else 0
  | [] => 0

lemma stripTicks_cons' (c : Char) (r : List Char) (h : ¬(c = '`' ∧ 2 ≤ leadTicks r)) :
    stripTicks (c :: r) = c :: stripTicks r := by
  rw [stripTicks.eq_def]
  split
  · exfalso
    rename_i rest heq
    injection heq with h1 h2
    subst h1
    subst h2
    exact h ⟨rfl, by simp [leadTicks]⟩
  · rename_i c' rest heq
    injection heq with h1 h2
    subst h1
    subst h2
    rfl
  · rename_i hne
    simp at hne



lemma hasTriple_cons_of_ne (c : Char) (l : List Char) (hc : c ≠ '`') :
    hasTriple (c :: l) = hasTriple l := by
  rcases l with - | ⟨a, - | ⟨b, l⟩⟩
  · simp [hasTriple]
  · simp [hasTriple]
  · simp [hasTriple, hc]

lemma hasTriple_tick_cons (l : List Char) (hl : leadTicks l ≤ 1)
    (h : hasTriple l = false) : hasTriple ('`' :: l) = false := by
  rcases l with - | ⟨a, - | ⟨b, l⟩⟩
  · simp [hasTriple]
  · simp [hasTriple]
  · by_cases ha : a = '`'
    · subst ha
      by_cases hb : b = '`'
      · subst hb
        simp [leadTicks] at hl
      · simp [hasTriple, hb] at h ⊢
        exact h
    · simp [hasTriple, ha] at h ⊢
      exact h

lemma stripTicks_spec_aux :
    ∀ (n : Nat) (s : List Char), s.length ≤ n →
      hasTriple (stripTicks s) = false ∧
      leadTicks (stripTicks s) ≤ min (leadTicks s) 2 := by
  intro n
  induction n with
  | zero =>
    intro s hs
    rw [List.length_eq_zero.mp (Nat.le_zero.mp hs)]
    simp [stripTicks, hasTriple, leadTicks]
  | succ n ih =>
    intro s hs
    rcases s with - | ⟨c, r⟩
    · simp [stripTicks, hasTriple, leadTicks]
    · by_cases h3 : c = '`' ∧ 2 ≤ leadTicks r
      · obtain ⟨rfl, h2⟩ := h3
        rcases r with - | ⟨a, - | ⟨b, r⟩⟩
        · simp [leadTicks] at h2
        · by_cases ha : a = '`' <;> simp [leadTicks, ha] at h2
        · by_cases ha : a = '`'
          · subst ha
            by_cases hb : b = '`'
            · subst hb
              have hlen : r.length ≤ n := by
                simp only [List.length_cons] at hs
                omega
              obtain ⟨ih1, ih2⟩ := ih r hlen
              constructor
              · simpa [stripTicks] using ih1
              · have : leadTicks ('`' :: '`' :: '`' :: r) = leadTicks r + 3 := by
                  simp [leadTicks]
                rw [this]
                have h4 : stripTicks ('`' :: '`' :: '`' :: r) = stripTicks r := by
                  simp [stripTicks]
                rw [h4]
                omega
            · simp [leadTicks, hb] at h2
          · simp [leadTicks, ha] at h2
      · have hr : r.length ≤ n := by
          simp only [List.length_cons] at hs
          omega
        obtain ⟨ih1, ih2⟩ := ih r hr
        rw [stripTicks_cons' c r h3]
        by_cases hc : c = '`'
        · subst hc
          have h2 : leadTicks r ≤ 1 := by
            by_contra hgt
            exact h3 ⟨rfl, by omega⟩
          constructor
          · exact hasTriple_tick_cons _ (by omega) ih1
          · simp only [leadTicks, if_true, reduceIte]
            omega
        · constructor
          · rw [hasTriple_cons_of_ne c _ hc]
            exact ih1
          · simp [leadTicks, hc]

lemma hasTriple_stripTicks (s : List Char) : hasTriple (stripTicks s) = false :=
  (stripTicks_spec_aux s.length s le_rfl).1



lemma hasTriple_tail (c : Char) (l : List Char) (h : hasTriple (c :: l) = false) :
    hasTriple l = false := by
  rcases l with - | ⟨a, - | ⟨b, l⟩⟩
  · simp [hasTriple]
  · simp [hasTriple]
  · simp [hasTriple] at h ⊢
    tauto

lemma hasTriple_of_suffix (t l : List Char) (hs : t <:+ l)
    (h : hasTriple l = false) : hasTriple t = false := by
  obtain ⟨p, rfl⟩ := hs
  induction p with
  | nil => simpa using h
  | cons c p ih => exact ih (hasTriple_tail c _ h)

lemma hasTriple_append_right (t q : List Char) (h : hasTriple t = true) :
    hasTriple (t ++ q) = true := by
  induction t using hasTriple.induct with
  | case1 a b c rest ih =>
    simp only [hasTriple, Bool.or_eq_true] at h
    rcases h with h | h
    · simp [hasTriple, h]
    · simp only [hasTriple, Bool.or_eq_true]
      right
      simpa using ih h
  | case2 t h1 =>
    rw [hasTriple.eq_def] at h
    split at h
    · exact (h1 _ _ _ _ rfl).elim
    · simp at h

lemma hasTriple_of_leading (t l : List Char) (hp : t <+: l)
    (h : hasTriple l = false) : hasTriple t = false := by
  obtain ⟨q, rfl⟩ := hp
  by_contra hcon
  rw [hasTriple_append_right t q (by simpa using hcon)] at h
  simp at h

lemma hasTriple_trimStr (l : List Char) (h : hasTriple l = false) :
    hasTriple (trimStr l) = false := by
  have h1 : hasTriple (l.dropWhile isWs) = false :=
    hasTriple_of_suffix _ _ (List.dropWhile_suffix isWs) h
  have h2 : trimStr l = (l.dropWhile isWs).rdropWhile isWs := rfl
  rw [h2]
  have hpre := List.rdropWhile_prefix isWs (l.dropWhile isWs)
  exact hasTriple_of_leading _ _ hpre h1

lemma hasTriple_header_append (l : List Char) (h : hasTriple l = false) :
    hasTriple ("WEBVTT\n\n".data ++ l) = false := by
  show hasTriple ('W' :: 'E' :: 'B' :: 'V' :: 'T' :: 'T' :: '\n' :: '\n' :: l) = false
  rw [hasTriple_cons_of_ne _ _ (by decide), hasTriple_cons_of_ne _ _ (by decide),
    hasTriple_cons_of_ne _ _ (by decide), hasTriple_cons_of_ne _ _ (by decide),
    hasTriple_cons_of_ne _ _ (by decide), hasTriple_cons_of_ne _ _ (by decide),
    hasTriple_cons_of_ne _ _ (by decide), hasTriple_cons_of_ne _ _ (by decide)]
  exact h

lemma cleanupVtt_eq (s : List Char) :
    cleanupVtt s =
      if "WEBVTT".data.isPrefixOf (trimStr (stripTicks (stripFenceVtt s)))
      then trimStr (stripTicks (stripFenceVtt s))
      else "WEBVTT\n\n".data ++ trimStr (stripTicks (stripFenceVtt s)) := rfl

/-- The cleaned-up payload never contains a triple-backtick fence. -/
lemma hasTriple_cleanupVtt (s : List Char) : hasTriple (cleanupVtt s) = false := by
  rw [cleanupVtt_eq]
  have h1 : hasTriple (trimStr (stripTicks (stripFenceVtt s))) = false :=
    hasTriple_trimStr _ (hasTriple_stripTicks _)
  split
  · exact h1
  · exact hasTriple_header_append _ h1

/-- The cleaned-up payload always begins with the WEBVTT header token. -/
lemma cleanupVtt_header (s : List Char) :
    "WEBVTT".data.isPrefixOf (cleanupVtt s) = true := by
  rw [cleanupVtt_eq]
  split
  · assumption
  · show "WEBVTT".data.isPrefixOf ('W' :: 'E' :: 'B' :: 'V' :: 'T' :: 'T' :: '\n' :: '\n' :: _) = true
    simp [List.isPrefixOf]



lemma stripTicks_eq_self (s : List Char) (h : '`' ∉ s) : stripTicks s = s := by
  induction s with
  | nil => rfl
  | cons c r ih =>
    simp only [List.mem_cons, not_or] at h
    rw [stripTicks_cons' c r (fun hx => h.1 hx.1.symm)]
    rw [ih h.2]

lemma stripFenceVtt_eq_self (s : List Char) (h : '`' ∉ s) : stripFenceVtt s = s := by
  induction s with
  | nil => rfl
  | cons c r ih =>
    simp only [List.mem_cons, not_or] at h
    rw [stripFenceVtt.eq_def]
    split
    · rename_i rest heq
      injection heq with h1 h2
      exact absurd h1.symm h.1
    · rename_i c' rest heq
      injection heq with h1 h2
      subst h1
      subst h2
      rw [ih h.2]
    · rename_i hne
      simp at hne

/-- C1 (amended): the timed-document Validator/Repairer performs no
timestamp validation and has no failure path; any payload with no
backticks, no surrounding whitespace, and already starting with the
`WEBVTT` header — including one whose cue's end timestamp precedes its
start — is returned verbatim instead of being rejected with
`MalformedSubtitleDocument`. -/
theorem repair_no_timestamp_validation (s : List Char)
    (hticks : '`' ∉ s) (htrim : trimStr s = s)
    (hhdr : "WEBVTT".data.isPrefixOf s = true) :
    cleanupVtt s = s := by
  rw [cleanupVtt_eq, stripFenceVtt_eq_self s hticks, stripTicks_eq_self s hticks,
    htrim, if_pos hhdr]

/-- C1 witness: the amended theorem applied to a document whose single
cue runs from 9 s back to 3 s. -/
theorem repair_no_timestamp_validation_witness :
    cleanupVtt "WEBVTT\n\n00:00:09.000 --> 00:00:03.000\nBonjour".data =
      "WEBVTT\n\n00:00:09.000 --> 00:00:03.000\nBonjour".data :=
  repair_no_timestamp_validation _ (by decide) (by decide) (by decide)

/-- C1 counterexample: a collaborator payload with a cue whose end
(1 s) precedes its start (5 s) is served as-is by the pipeline — the vtt
outcome with the inverted cue intact — rather than failing with
`MalformedSubtitleDocument` as the claim states. -/
theorem inverted_timestamps_returned :
    generatePipeline "https://youtu.be/badcue1".data "es".data
        (some [⟨"0".data, "1".data, "hi".data⟩])
        "WEBVTT\n\n00:00:05.000 --> 00:00:01.000\nHello world".data =
      (.vtt "WEBVTT\n\n00:00:05.000 --> 00:00:01.000\nHello world".data,
       [.fetchCaptions "badcue1".data, .translate "hi".data]) := by decide

/-- C7: for every collaborator payload the repaired output starts with
the `WEBVTT` header token on line 1 (the payload is never rejected — the
repairer is total), and no triple-backtick fence marker remains anywhere
in the output. -/
theorem repair_header_and_no_fences (s : List Char) :
    "WEBVTT".data.isPrefixOf (cleanupVtt s) = true ∧
    hasTriple (cleanupVtt s) = false :=
  ⟨cleanupVtt_header s, hasTriple_cleanupVtt s⟩

/-- C10 (implicit): the repair step deletes every occurrence of the
three-backtick sequence anywhere in the payload — the repaired output
never contains the substring made of three consecutive backticks — and a
legitimate backtick run inside cue text is removed as well, as the
concrete instance shows. -/
theorem backtick_deletion_global :
    (∀ s, hasTriple (cleanupVtt s) = false) ∧
    cleanupVtt "WEBVTT\n\ncue text with ```code``` inside".data =
      "WEBVTT\n\ncue text with code inside".data :=
  ⟨hasTriple_cleanupVtt, by decide⟩



/-! ## C9: the Serializer (§4.6) and parser (§4.5)

Neither a subtitle-document serializer nor a parser exists anywhere in the
repository's code (`server.js` passes the collaborator text through
unparsed, and the plain-mode server emits JSON); both components below are
therefore modelled from the spec's wire grammar. -/

/-- Modelled from the spec: the §3 `Cue` of a `SubtitleDocument` as the
§4.6 Serializer consumes it.  The repository has no serializer, so the
numeric second offsets are carried here in integer milliseconds, the exact
precision of the `HH:MM:SS.mmm` wire format; the JS field `end` is a Lean
keyword and is called `stopMs`. -/
structure VttCue where
  text : List Char
  startMs : Nat
  stopMs : Nat
deriving DecidableEq

/-- Modelled from the spec: a zero-padded two-digit field. -/
def pad2 (n : Nat) : List Char := [Nat.digitChar (n / 10), Nat.digitChar (n % 10)]

/-- Modelled from the spec: a zero-padded three-digit millisecond field. -/
def pad3 (n : Nat) : List Char :=
  [Nat.digitChar (n / 100), Nat.digitChar (n / 10 % 10), Nat.digitChar (n % 10)]

/-- Modelled from the spec: render milliseconds as the fixed-width
`HH:MM:SS.mmm` timestamp of the §6 wire grammar. -/
def fmtTime (ms : Nat) : List Char :=
  pad2 (ms / 3600000) ++ ':' :: pad2 (ms / 60000 % 60) ++ ':' :: pad2 (ms / 1000 % 60)
    ++ '.' :: pad3 (ms % 1000)

/-- Modelled from the spec: the timestamp line with the exact `" --> "`
arrow separator. -/
def tsLineOf (s e : Nat) : List Char := fmtTime s ++ " --> ".data ++ fmtTime e

/-- Modelled from the spec: the lines one cue contributes — its timestamp
line, its text (line by line), and the terminating blank line. -/
def cueLines (c : VttCue) : List (List Char) :=
  tsLineOf c.startMs c.stopMs :: (c.text.splitOn '\n' ++ [[]])

/-- Modelled from the spec (§4.6 Serializer, absent from the code): the
header line, a blank line, then each cue's block, joined with newlines. -/
def serializeDoc (doc : List VttCue) : List Char :=
  List.intercalate ['\n'] ("WEBVTT".data :: [] :: (doc.map cueLines).flatten)

/-- Modelled from the spec: parse one fixed-width `HH:MM:SS.mmm` timestamp
back to milliseconds; any other shape is rejected. -/
def parseTime : List Char → Option Nat
  | [h1, h2, ':', m1, m2, ':', s1, s2, '.', x1, x2, x3] =>
    if h1.isDigit && h2.isDigit && m1.isDigit && m2.isDigit && s1.isDigit && s2.isDigit
        && x1.isDigit && x2.isDigit && x3.isDigit then
      some ((((h1.toNat - 48) * 10 + (h2.toNat - 48)) * 3600000) +
        (((m1.toNat - 48) * 10 + (m2.toNat - 48)) * 60000) +
        (((s1.toNat - 48) * 10 + (s2.toNat - 48)) * 1000) +
        ((x1.toNat - 48) * 100 + (x2.toNat - 48) * 10 + (x3.toNat - 48)))
    else none
  | _ => none

/-- Modelled from the spec: recognize a timestamp-arrow line,
`HH:MM:SS.mmm --> HH:MM:SS.mmm`, exactly 29 characters. -/
def parseTsLine (l : List Char) : Option (Nat × Nat) :=
  if l.length = 29 then
    if (l.drop 12).take 5 = " --> ".data then
      match parseTime (l.take 12), parseTime (l.drop 17) with
      | some s, some e => some (s, e)
      | _, _ => none
    else none
  else none

/-- Modelled from the spec (§4.5 parser, absent from the code): a
timestamp line opens a cue; subsequent non-blank non-timestamp lines are
its text, joined with a line break; a blank line or the next timestamp
line closes it; stray lines outside a cue (the header among them) are
ignored.  The state holds the open cue's timestamps and its text lines in
reverse. -/
def parseCuesGo : Option (Nat × Nat × List (List Char)) → List (List Char) → List VttCue
  | none, [] => []
  | some (s, e, acc), [] => [⟨List.intercalate ['\n'] acc.reverse, s, e⟩]
  | none, l :: rest =>
    match parseTsLine l with
    | some (s, e) => parseCuesGo (some (s, e, [])) rest
    | none => parseCuesGo none rest
  | some (s, e, acc), l :: rest =>
    match parseTsLine l with
    | some (s', e') =>
      ⟨List.intercalate ['\n'] acc.reverse, s, e⟩ :: parseCuesGo (some (s', e', [])) rest
    | none =>
      if l.isEmpty then
        ⟨List.intercalate ['\n'] acc.reverse, s, e⟩ :: parseCuesGo none rest
      else parseCuesGo (some (s, e, l :: acc)) rest

/-- Modelled from the spec: split into lines and scan for cue blocks. -/
def parseDoc (s : List Char) : List VttCue := parseCuesGo none (s.splitOn '\n')



/-- No digit character is a newline, for any input. -/
lemma digitChar_ne_newline (n : Nat) : Nat.digitChar n ≠ '\n' := by
  by_cases h : n < 16
  · interval_cases n <;> decide
  · unfold Nat.digitChar
    have h0 : ¬ n = 0 := by omega
    have h1 : ¬ n = 1 := by omega
    have h2 : ¬ n = 2 := by omega
    have h3 : ¬ n = 3 := by omega
    have h4 : ¬ n = 4 := by omega
    have h5 : ¬ n = 5 := by omega
    have h6 : ¬ n = 6 := by omega
    have h7 : ¬ n = 7 := by omega
    have h8 : ¬ n = 8 := by omega
    have h9 : ¬ n = 9 := by omega
    have ha : ¬ n = 0xa := by omega
    have hb : ¬ n = 0xb := by omega
    have hc : ¬ n = 0xc := by omega
    have hd : ¬ n = 0xd := by omega
    have he : ¬ n = 0xe := by omega
    have hf : ¬ n = 0xf := by omega
    simp only [h0, h1, h2, h3, h4, h5, h6, h7, h8, h9, ha, hb, hc, hd, he, hf, if_false]
    decide

lemma digitChar_isDigit (n : Nat) (h : n < 10) : (Nat.digitChar n).isDigit = true := by
  interval_cases n <;> decide

lemma digitChar_toNat (n : Nat) (h : n < 10) : (Nat.digitChar n).toNat = n + 48 := by
  interval_cases n <;> decide

lemma newline_not_mem_fmtTime (ms : Nat) : '\n' ∉ fmtTime ms := by
  simp only [fmtTime, pad2, pad3, List.cons_append, List.nil_append, List.mem_cons,
    List.not_mem_nil, or_false, not_or]
  refine ⟨?_, ?_, ?_, ?_, ?_, ?_, ?_, ?_, ?_, ?_, ?_, ?_⟩ <;>
    first | decide | exact fun h => digitChar_ne_newline _ h.symm

lemma newline_not_mem_tsLineOf (s e : Nat) : '\n' ∉ tsLineOf s e := by
  unfold tsLineOf
  intro h
  rcases List.mem_append.mp h with h | h
  · rcases List.mem_append.mp h with h | h
    · exact newline_not_mem_fmtTime s h
    · simp at h
  · exact newline_not_mem_fmtTime e h



/-- No element of `xs.splitOn x` contains the separator `x`. -/
lemma splitOn_sep_not_mem (x : Char) :
    ∀ (xs : List Char), ∀ l ∈ xs.splitOn x, x ∉ l := by
  intro xs
  induction xs with
  | nil =>
    intro l hl
    simp [List.splitOn, List.splitOnP_nil] at hl
    simp [hl]
  | cons c xs ih =>
    intro l hl
    simp only [List.splitOn] at hl ih
    rw [List.splitOnP_cons] at hl
    by_cases hc : c = x
    · simp only [hc, beq_self_eq_true, if_true] at hl
      rcases List.mem_cons.mp hl with rfl | hl
      · simp
      · exact ih l hl
    · simp only [beq_eq_false_iff_ne.mpr hc, if_false, Bool.false_eq_true] at hl
      rcases heq : xs.splitOnP (· == x) with - | ⟨h0, t⟩
      · exact absurd heq (List.splitOnP_ne_nil _ xs)
      · rw [heq] at hl
        simp only [List.modifyHead] at hl
        rcases List.mem_cons.mp hl with rfl | hl
        · intro hmem
          rcases List.mem_cons.mp hmem with rfl | hmem
          · exact hc rfl
          · exact ih h0 (heq ▸ List.mem_cons_self h0 t) hmem
        · exact ih l (heq ▸ List.mem_cons_of_mem h0 hl)



/-- Parsing a rendered timestamp recovers the milliseconds, below the
100-hour bound of the two-digit hour field. -/
lemma parseTime_fmtTime (ms : Nat) (h : ms < 360000000) :
    parseTime (fmtTime ms) = some ms := by
  show parseTime
      [Nat.digitChar (ms / 3600000 / 10), Nat.digitChar (ms / 3600000 % 10), ':',
       Nat.digitChar (ms / 60000 % 60 / 10), Nat.digitChar (ms / 60000 % 60 % 10), ':',
       Nat.digitChar (ms / 1000 % 60 / 10), Nat.digitChar (ms / 1000 % 60 % 10), '.',
       Nat.digitChar (ms % 1000 / 100), Nat.digitChar (ms % 1000 / 10 % 10),
       Nat.digitChar (ms % 1000 % 10)] = some ms
  rw [parseTime]
  rw [digitChar_isDigit _ (by omega), digitChar_isDigit _ (by omega),
    digitChar_isDigit _ (by omega), digitChar_isDigit _ (by omega),
    digitChar_isDigit _ (by omega), digitChar_isDigit _ (by omega),
    digitChar_isDigit _ (by omega), digitChar_isDigit _ (by omega),
    digitChar_isDigit _ (by omega)]
  simp only [Bool.and_self, if_true]
  rw [digitChar_toNat _ (by omega), digitChar_toNat _ (by omega),
    digitChar_toNat _ (by omega), digitChar_toNat _ (by omega),
    digitChar_toNat _ (by omega), digitChar_toNat _ (by omega),
    digitChar_toNat _ (by omega), digitChar_toNat _ (by omega),
    digitChar_toNat _ (by omega)]
  congr 1
  omega



lemma fmtTime_length (ms : Nat) : (fmtTime ms).length = 12 := by
  simp [fmtTime, pad2, pad3]

lemma fmtTime_take (ms : Nat) (l : List Char) : (fmtTime ms ++ l).take 12 = fmtTime ms :=
  List.take_left' (fmtTime_length ms)

/-- A rendered timestamp-arrow line parses back to its two offsets. -/
lemma parseTsLine_tsLineOf (s e : Nat) (hs : s < 360000000) (he : e < 360000000) :
    parseTsLine (tsLineOf s e) = some (s, e) := by
  unfold parseTsLine tsLineOf
  have hlen : (fmtTime s ++ " --> ".data ++ fmtTime e).length = 29 := by
    simp [fmtTime_length]
  rw [if_pos hlen]
  have hdrop : (fmtTime s ++ " --> ".data ++ fmtTime e).drop 12 = " --> ".data ++ fmtTime e := by
    rw [List.append_assoc]
    exact List.drop_left' (fmtTime_length s)
  have htake5 : (" --> ".data ++ fmtTime e).take 5 = " --> ".data := List.take_left' rfl
  rw [hdrop, htake5, if_pos rfl]
  have htake12 : (fmtTime s ++ " --> ".data ++ fmtTime e).take 12 = fmtTime s := by
    rw [List.append_assoc]
    exact fmtTime_take s _
  have hdrop17 : (fmtTime s ++ " --> ".data ++ fmtTime e).drop 17 = fmtTime e :=
    List.drop_left' (by simp [fmtTime_length])
  rw [htake12, hdrop17, parseTime_fmtTime s hs, parseTime_fmtTime e he]



/-- Consuming a cue's text lines up to the terminating blank line yields
the cue with those lines joined after the accumulator. -/
lemma parseCuesGo_text (s e : Nat) (acc txtls rest : List (List Char))
    (h : ∀ l ∈ txtls, l ≠ [] ∧ parseTsLine l = none) :
    parseCuesGo (some (s, e, acc)) (txtls ++ [] :: rest) =
      ⟨List.intercalate ['\n'] (acc.reverse ++ txtls), s, e⟩ :: parseCuesGo none rest := by
  induction txtls generalizing acc with
  | nil =>
    have hblank : parseTsLine [] = none := by decide
    simp [parseCuesGo, hblank]
  | cons l ls ih =>
    obtain ⟨hne, hts⟩ := h l (List.mem_cons_self l ls)
    have hemp : l.isEmpty = false := by
      rcases l with - | ⟨c, l⟩
      · exact absurd rfl hne
      · rfl
    simp only [List.cons_append, parseCuesGo, hts, hemp, Bool.false_eq_true, if_false,
      List.append_eq]
    rw [ih (l :: acc) (fun l' hl' => h l' (List.mem_cons_of_mem l hl'))]
    simp



/-- Parsing the concatenated cue blocks recovers the document, provided
each cue's offsets fit the wire format and its text lines are non-blank
and not timestamp-shaped. -/
lemma parseCuesGo_blocks :
    ∀ (doc : List VttCue),
      (∀ c ∈ doc, c.startMs < 360000000 ∧ c.stopMs < 360000000 ∧
        ∀ l ∈ c.text.splitOn '\n', l ≠ [] ∧ parseTsLine l = none) →
      parseCuesGo none ((doc.map cueLines).flatten) = doc := by
  intro doc
  induction doc with
  | nil => intro h; simp [parseCuesGo]
  | cons c doc ih =>
    intro h
    obtain ⟨hs, he, htxt⟩ := h c (List.mem_cons_self c doc)
    have hflat : ((c :: doc).map cueLines).flatten =
        tsLineOf c.startMs c.stopMs :: (c.text.splitOn '\n' ++ [] :: (doc.map cueLines).flatten) := by
      simp [cueLines]
    rw [hflat]
    simp only [parseCuesGo, parseTsLine_tsLineOf c.startMs c.stopMs hs he]
    rw [parseCuesGo_text _ _ _ _ _ htxt]
    rw [ih (fun c' hc' => h c' (List.mem_cons_of_mem c hc'))]
    have : (['\n'].intercalate (([] : List (List Char)).reverse ++ c.text.splitOn '\n')) = c.text := by
      simpa using List.intercalate_splitOn c.text '\n'
    rw [this]



/-- C9 (amended): `parse(serialize(doc)) = doc` for every document with at
least one cue in which every cue's offsets are below the 100-hour bound of
the two-digit hour field and every line of every cue's text is non-blank
and does not itself match the timestamp-arrow pattern. -/
theorem serialize_parse_roundtrip (doc : List VttCue) (hdoc : doc ≠ [])
    (h : ∀ c ∈ doc, c.startMs < 360000000 ∧ c.stopMs < 360000000 ∧
        ∀ l ∈ c.text.splitOn '\n', l ≠ [] ∧ parseTsLine l = none) :
    parseDoc (serializeDoc doc) = doc := by
  unfold parseDoc serializeDoc
  have hx : ∀ l ∈ ("WEBVTT".data :: [] :: (doc.map cueLines).flatten), '\n' ∉ l := by
    intro l hl
    rcases List.mem_cons.mp hl with rfl | hl
    · decide
    · rcases List.mem_cons.mp hl with rfl | hl
      · simp
      · obtain ⟨L, hL, hlL⟩ := List.mem_flatten.mp hl
        obtain ⟨c, hc, rfl⟩ := List.mem_map.mp hL
        rcases List.mem_cons.mp hlL with rfl | hl2
        · exact newline_not_mem_tsLineOf _ _
        · rcases List.mem_append.mp hl2 with hl3 | hl3
          · exact splitOn_sep_not_mem '\n' c.text l hl3
          · simp only [List.mem_singleton] at hl3
            subst hl3
            simp
  have hne : ("WEBVTT".data :: [] :: (doc.map cueLines).flatten) ≠ [] := by simp
  rw [List.splitOn_intercalate _ '\n' hx hne]
  have h1 : parseTsLine "WEBVTT".data = none := by decide
  have h2 : parseTsLine ([] : List Char) = none := by decide
  simp only [parseCuesGo, h1, h2]
  exact parseCuesGo_blocks doc h

/-- C9 counterexample: a document whose single cue's text contains a blank
line ("a\n\nbb") does not survive the round trip — the parser closes the
cue at the embedded blank line and drops the trailing text, so
`parse(serialize(doc)) ≠ doc` for this document with one cue. -/
theorem roundtrip_counterexample :
    parseDoc (serializeDoc [⟨"a\n\nbb".data, 0, 2000⟩]) ≠ [⟨"a\n\nbb".data, 0, 2000⟩] := by
  decide

/-- C9 witness: the amended round trip applied to a concrete two-cue
document (one cue with a two-line text). -/
theorem serialize_parse_roundtrip_witness :
    parseDoc (serializeDoc [⟨"Hola".data, 0, 2000⟩, ⟨"Que tal\nestas".data, 2000, 4000⟩]) =
      [⟨"Hola".data, 0, 2000⟩, ⟨"Que tal\nestas".data, 2000, 4000⟩] :=
  serialize_parse_roundtrip _ (by decide) (by decide)

end YTSubs
